import Mathlib

/-!
Shallow embedding of `main.py`, a terminal "digital rain" animation.

Pure data and state-transition parts of the program are translated into
executable Lean definitions; randomness is made explicit by passing the
drawn values (speeds, glyph choices, the uniform sample in `[0,1)`) as
parameters, and terminal I/O is modelled by recording the screen writes a
step would issue.  Python floats are modelled as rationals, Python `int()`
as truncation toward zero, and Python `range` by fueled recursions whose
fuel provably exceeds the iteration count for the step sizes used here.
-/

/-- Python `int()` applied to a rational: truncation toward zero. -/
def pytrunc (q : ℚ) : ℤ := Int.tdiv q.num (q.den : ℤ)

/-- Python `range(start, stop, step)` for a positive `step`, ascending,
with explicit fuel.  With `step ≥ 1` and fuel `stop` the fuel never runs
out while the loop guard still holds. -/
def rangeUpAux (stop step : Nat) : Nat → Nat → List Nat
  | 0, _ => []
  | fuel + 1, start =>
    if start < stop then start :: rangeUpAux stop step fuel (start + step) else []

/-- Python `range(start, stop, step)` for positive `step`. -/
def rangeUp (start stop step : Nat) : List Nat := rangeUpAux stop step stop start

/-- Python `range(start, stop, -step)` for a positive `step`, descending,
with explicit fuel. -/
def rangeDownAux (stop step : Nat) : Nat → Nat → List Nat
  | 0, _ => []
  | fuel + 1, start =>
    if stop < start then start :: rangeDownAux stop step fuel (start - step) else []

/-- Python `range(start, stop, -step)` for positive `step`. -/
def rangeDown (start stop step : Nat) : List Nat := rangeDownAux stop step start start

/-- The half-open range of characters with code points in `[lo, hi)`. -/
def charRange (lo hi : Nat) : List Char :=
  (List.range (hi - lo)).map (fun k => Char.ofNat (lo + k))

/-- Python `string.ascii_letters + string.digits + string.punctuation`:
lowercase, uppercase, digits, then the four ASCII punctuation blocks. -/
def LATIN : List Char :=
  charRange 97 123 ++ charRange 65 91 ++ charRange 48 58 ++
    charRange 33 48 ++ charRange 58 65 ++ charRange 91 97 ++ charRange 123 127

/-- The pooled Katakana, Hiragana and Kangxi-radical code-point ranges,
exactly `KATAKANA = range(0x30a0, 0x30ff)`, `HIRAGANA = range(0x3041, 0x3097)`,
`KANGXI = range(0x2f00, 0x2fd5)` chained. -/
def NON_LATIN : List Char :=
  charRange 0x30a0 0x30ff ++ charRange 0x3041 0x3097 ++ charRange 0x2f00 0x2fd5

/-- A display token: either two narrow Latin characters or one wide glyph.
Both render two terminal cells wide. -/
inductive GlyphToken where
  | latin (a b : Char)
  | wide (c : Char)
deriving DecidableEq

/-- Terminal cells covered by a token: a Latin pair is two one-cell
characters, a non-Latin glyph is one two-cell-wide character. -/
def GlyphToken.dispWidth : GlyphToken → Nat
  | .latin _ _ => 2
  | .wide _ => 2

/-- `random_character(latin_chance)` from `main.py`.  The uniform sample
`random.random()` is the explicit parameter `r` (so `r ∈ [0,1)`), and the
three `random.choice` index draws are `i1 i2 j`, reduced modulo the pool
size as a uniform choice from the pool. -/
def random_character (r latin_chance : ℚ) (i1 i2 j : Nat) : GlyphToken :=
  if r < latin_chance then
    .latin (LATIN.getD (i1 % LATIN.length) 'a') (LATIN.getD (i2 % LATIN.length) 'a')
  else
    .wide (NON_LATIN.getD (j % NON_LATIN.length) 'a')

/-- `Character` from `main.py`: one glyph of a column, at float row `y`,
integer column `x`, with its symbol and fixed color pair. -/
structure Character where
  y : ℚ
  x : ℤ
  symbol : GlyphToken
  color : Nat
deriving DecidableEq

/-- `Column` from `main.py`. -/
structure Column where
  min_falling_speed : ℚ
  characters : List Character
  width : Nat
deriving DecidableEq

/-- `Column.__init__(head, colors, min_falling_speed, width)`: one
`Character` per color, at `(head[0] - dy, head[1])` for depth `dy`.  The
random symbol drawn for depth `dy` is supplied as `draw dy`. -/
def Column.init (head : ℤ × ℤ) (colors : List Nat) (speed : ℚ) (width : Nat)
    (draw : Nat → GlyphToken) : Column :=
  { min_falling_speed := speed
    width := width
    characters := colors.enum.map (fun p =>
      { y := ((head.1 - p.1 : ℤ) : ℚ), x := head.2, symbol := draw p.1, color := p.2 }) }

/-- One write issued to the curses screen: a string of `len` cells placed
with its leftmost cell at `(row, col)`. -/
structure Write where
  row : ℤ
  col : ℤ
  len : Nat
deriving DecidableEq

/-- The guard `is_on_screen(y)` of `Column.step`: `y in range(0, max_y)`. -/
def is_on_screen (maxY y : ℤ) : Bool :=
  decide (0 ≤ y) && decide (y < maxY)

/-- The mutable locals of the character loop in `Column.step`: the updated
characters, the writes issued so far, `still_visible`, and the loop
variables `y, x` (initialised to `-1, -1`). -/
structure StepAcc where
  chars : List Character
  writes : List Write
  vis : Bool
  y : ℤ
  x : ℤ
deriving DecidableEq

/-- The body of the `for char in self.characters` loop of `Column.step`:
read the truncated row and the column, advance the character by the
falling speed, and if the old truncated row is on screen draw the symbol
there and mark the column visible. -/
def stepFold (speed : ℚ) (maxY : ℤ) (acc : StepAcc) (c : Character) : StepAcc :=
  if is_on_screen maxY (pytrunc c.y) then
    { chars := acc.chars ++ [{ c with y := c.y + speed }],
      writes := acc.writes ++ [⟨pytrunc c.y, c.x, c.symbol.dispWidth⟩],
      vis := true, y := pytrunc c.y, x := c.x }
  else
    { chars := acc.chars ++ [{ c with y := c.y + speed }],
      writes := acc.writes, vis := acc.vis, y := pytrunc c.y, x := c.x }

/-- The trailing-erase loop of `Column.step`: from row `y` upward, while
on screen, blank `width` cells at column `x`.  Fueled; the guard bounds
the iteration count by `maxY`, so fuel `maxY.toNat` never runs out while
the guard holds. -/
def eraseTrailAux (maxY x : ℤ) (width : Nat) : Nat → ℤ → List Write
  | 0, _ => []
  | fuel + 1, y =>
    if is_on_screen maxY y then
      Write.mk y x width :: eraseTrailAux maxY x width fuel (y - 1)
    else []

/-- The trailing-erase loop of `Column.step`, starting at row `y`. -/
def eraseTrail (maxY y x : ℤ) (width : Nat) : List Write :=
  eraseTrailAux maxY x width maxY.toNat y

/-- `Column.step(screen)`: advance every character, collect the draw
writes of visible characters, erase the trail above the last character,
and report whether any character was visible.  Returns the updated
column, the writes issued, and the `still_visible` flag. -/
def Column.step (col : Column) (maxY : ℤ) : Column × List Write × Bool :=
  let a := col.characters.foldl (stepFold col.min_falling_speed maxY)
    ⟨[], [], false, -1, -1⟩
  ({ col with characters := a.chars },
   a.writes ++ eraseTrail maxY (a.y - 1) a.x col.width,
   a.vis)

/-- `Column.reset(new_min_falling_speed)`: set the new speed and, for each
character at depth `dy`, restage it at row `-dy` with a fresh random
symbol `draw dy`.  Column index and color are not touched. -/
def Column.reset (col : Column) (newSpeed : ℚ) (draw : Nat → GlyphToken) : Column :=
  { col with
    min_falling_speed := newSpeed
    characters := col.characters.enum.map (fun p =>
      { y := (-(p.1 : ℤ) : ℚ), x := p.2.x, symbol := draw p.1, color := p.2.color }) }

/-- One operation applied to a column over its lifetime. -/
inductive Op where
  | step (maxY : ℤ)
  | reset (speed : ℚ) (draw : Nat → GlyphToken)

/-- Apply one lifetime operation. -/
def Column.applyOp (col : Column) : Op → Column
  | .step maxY => (col.step maxY).1
  | .reset s d => col.reset s d

/-- Apply a sequence of lifetime operations, oldest first. -/
def Column.applyOps (col : Column) (ops : List Op) : Column :=
  ops.foldl Column.applyOp col

/-- The column state after `n` calls to `step`. -/
def Column.stepN (col : Column) (maxY : ℤ) : Nat → Column
  | 0 => col
  | n + 1 => ((col.stepN maxY n).step maxY).1

/-- The `still_visible` result of the `n + 1`-st call to `step`. -/
def Column.stepResult (col : Column) (maxY : ℤ) (n : Nat) : Bool :=
  ((col.stepN maxY n).step maxY).2.2

/-- A list of brightness values is strictly decreasing. -/
def strictlyDecreasing : List Nat → Bool
  | [] => true
  | [_] => true
  | a :: b :: t => decide (b < a) && strictlyDecreasing (b :: t)

/-- The green gradient of `Rain.generate_green_palette`, as a function of
`m = min(8, curses.COLORS - 1)`: `dg = int(1000/m)` and the RGB triples
`(0, g, 0)` for `g in range(1000, dg, -dg)`. -/
def green_gradient_of (m : Nat) : List (Nat × Nat × Nat) :=
  let dg := 1000 / m
  (rangeDown 1000 dg dg).map (fun g => (0, g, 0))

/-- The raw green gradient built by `Rain.generate_green_palette` on a
terminal reporting `colors` supported colors. -/
def green_gradient (colors : Nat) : List (Nat × Nat × Nat) :=
  green_gradient_of (min 8 (colors - 1))

/-- The list of overwritten color pairs: `curses.color_pair(i)` for
`i in range(1, len(greens)+1)`, modelled by the pair id itself. -/
def color_pairs (colors : Nat) : List Nat :=
  List.range' 1 (green_gradient colors).length

/-- The palette stretch of `Rain.generate_green_palette` on a terminal
with `colors` colors and screen height `H`: split the color pairs at the
midpoint into `head` (before it) and `tail` (after it), and repeat the
midpoint color `H` times in the middle.  Evaluating the midpoint color
`color_pairs[middle_index]` raises `IndexError` when the list is empty
and the middle comprehension runs at least once; this failure is `none`. -/
def generate_green_palette (colors H : Nat) : Option (List Nat) :=
  match (color_pairs colors).get? ((color_pairs colors).length / 2) with
  | some c =>
    some ((color_pairs colors).take ((color_pairs colors).length / 2)
      ++ List.replicate H c
      ++ (color_pairs colors).drop ((color_pairs colors).length / 2 + 1))
  | none =>
    if H = 0 then
      some ((color_pairs colors).take ((color_pairs colors).length / 2)
        ++ (color_pairs colors).drop ((color_pairs colors).length / 2 + 1))
    else none

/-- The `x` slots of `Rain.generate_all_columns`:
`range(0, max_x, column_spacing)` with `max_x = screen_width - 2` and
`column_spacing = 2`. -/
def columnSlots (screenWidth : Nat) : List Nat :=
  rangeUp 0 (screenWidth - 2) 2

/-- `Rain.generate_all_columns()`: one column per slot, with head `(0, x)`,
the shared palette, a per-column random falling speed `speed x`, and width
`column_spacing = 2`.  The random glyph draws of column `x` at depth `dy`
are supplied as `draw x dy`. -/
def generate_all_columns (screenWidth : Nat) (palette : List Nat)
    (speed : Nat → ℚ) (draw : Nat → Nat → GlyphToken) : List Column :=
  (columnSlots screenWidth).map (fun x =>
    Column.init (0, Int.ofNat x) palette (speed x) 2 (draw x))

/-- `terminal_ok()` from `main.py`: start from `ok = True`, clear it if
the terminal has fewer than 2 colors or no color support, and clear it if
colors cannot be redefined. -/
def terminal_ok (colors : Nat) (has_colors can_change_color : Bool) : Bool :=
  let ok := true
  let ok := if colors < 2 ∨ has_colors = false then false else ok
  let ok := if can_change_color = false then false else ok
  ok

/-- The scenario column of the spec: head at row 0, a 24-level palette,
falling speed 1, width 2, on a 24-row screen. -/
def col24 : Column :=
  Column.init (0, 0) (List.range' 1 24) 1 2 (fun _ => GlyphToken.latin 'a' 'b')

/-- A screen write is in bounds for width `W` and height `maxY`: its row
is a visible row and its `len` cells fit left of the right screen edge. -/
def writeOK (W : Nat) (maxY : ℤ) (w : Write) : Prop :=
  0 ≤ w.row ∧ w.row < maxY ∧ 0 ≤ w.col ∧ w.col + w.len ≤ (W : ℤ) ∧ w.len = 2

/-- Every write of a list is in bounds. -/
def writesOK (W : Nat) (maxY : ℤ) (l : List Write) : Prop :=
  ∀ w ∈ l, writeOK W maxY w

/-- The token is a two-character Latin pair, both characters drawn from
the Latin letters, digits and punctuation pool. -/
def isLatinToken : GlyphToken → Prop
  | .latin a b => a ∈ LATIN ∧ b ∈ LATIN
  | .wide _ => False

/-- The token is a single glyph from the non-Latin pool. -/
def isWideToken : GlyphToken → Prop
  | .latin _ _ => False
  | .wide c => c ∈ NON_LATIN

/-! ### Helper lemmas about the embedding -/

lemma dispWidth_eq_two (g : GlyphToken) : g.dispWidth = 2 := by
  cases g <;> rfl

lemma is_on_screen_iff (maxY y : ℤ) :
    is_on_screen maxY y = true ↔ 0 ≤ y ∧ y < maxY := by
  simp [is_on_screen]

lemma map_const_replicate {α β : Type} (b : β) :
    ∀ l : List α, l.map (fun _ => b) = List.replicate l.length b := by
  intro l
  induction l with
  | nil => rfl
  | cons a t ih => simp [ih, List.replicate]

lemma getD_mod_mem (l : List Char) (i : Nat) (d : Char) (h : l ≠ []) :
    l.getD (i % l.length) d ∈ l := by
  have hl : 0 < l.length := List.length_pos.mpr h
  have hi : i % l.length < l.length := Nat.mod_lt _ hl
  rw [List.getD_eq_getElem l d hi]
  exact List.getElem_mem hi

lemma init_map_color (head : ℤ × ℤ) (colors : List Nat) (s : ℚ) (w : Nat)
    (d : Nat → GlyphToken) :
    (Column.init head colors s w d).characters.map (fun c => c.color) = colors := by
  unfold Column.init
  rw [List.map_map]
  exact List.enum_map_snd colors

lemma init_map_x (head : ℤ × ℤ) (colors : List Nat) (s : ℚ) (w : Nat)
    (d : Nat → GlyphToken) :
    (Column.init head colors s w d).characters.map (fun c => c.x)
      = List.replicate colors.length head.2 := by
  unfold Column.init
  rw [List.map_map]
  rw [show colors.length = colors.enum.length from (List.enum_length).symm]
  exact map_const_replicate head.2 colors.enum

lemma reset_map_color (col : Column) (s : ℚ) (d : Nat → GlyphToken) :
    (col.reset s d).characters.map (fun c => c.color)
      = col.characters.map (fun c => c.color) := by
  unfold Column.reset
  rw [List.map_map]
  conv_rhs => rw [← List.enum_map_snd col.characters, List.map_map]
  rfl

lemma reset_map_x (col : Column) (s : ℚ) (d : Nat → GlyphToken) :
    (col.reset s d).characters.map (fun c => c.x)
      = col.characters.map (fun c => c.x) := by
  unfold Column.reset
  rw [List.map_map]
  conv_rhs => rw [← List.enum_map_snd col.characters, List.map_map]
  rfl

lemma foldl_stepFold_chars (s : ℚ) (maxY : ℤ) :
    ∀ (l : List Character) (a : StepAcc),
      (l.foldl (stepFold s maxY) a).chars
        = a.chars ++ l.map (fun c => { c with y := c.y + s }) := by
  intro l
  induction l with
  | nil => intro a; simp
  | cons c t ih =>
    intro a
    rw [List.foldl_cons, ih]
    unfold stepFold
    split <;> simp

lemma step_chars (col : Column) (maxY : ℤ) :
    (col.step maxY).1.characters
      = col.characters.map (fun c => { c with y := c.y + col.min_falling_speed }) := by
  unfold Column.step
  simp [foldl_stepFold_chars]

lemma foldl_stepFold_writes (s : ℚ) (maxY x0 : ℤ) :
    ∀ (l : List Character) (a : StepAcc),
      (∀ c ∈ l, c.x = x0) →
      (∀ w ∈ a.writes, 0 ≤ w.row ∧ w.row < maxY ∧ w.col = x0 ∧ w.len = 2) →
      ∀ w ∈ (l.foldl (stepFold s maxY) a).writes,
        0 ≤ w.row ∧ w.row < maxY ∧ w.col = x0 ∧ w.len = 2 := by
  intro l
  induction l with
  | nil => intro a _ ha; simpa using ha
  | cons c t ih =>
    intro a hl ha
    rw [List.foldl_cons]
    refine ih _ (fun c' hc' => hl c' (List.mem_cons_of_mem _ hc')) ?_
    intro w hw
    unfold stepFold at hw
    split at hw
    case isTrue hos =>
      rcases List.mem_append.mp hw with h | h
      · exact ha w h
      · have hw' : w = ⟨pytrunc c.y, c.x, c.symbol.dispWidth⟩ := by simpa using h
        subst hw'
        obtain ⟨h1, h2⟩ := (is_on_screen_iff maxY (pytrunc c.y)).mp hos
        exact ⟨h1, h2, hl c (List.mem_cons_self c t), dispWidth_eq_two c.symbol⟩
    case isFalse => exact ha w hw

lemma foldl_stepFold_x (s : ℚ) (maxY x0 : ℤ) :
    ∀ (l : List Character) (a : StepAcc),
      (∀ c ∈ l, c.x = x0) → l ≠ [] →
      (l.foldl (stepFold s maxY) a).x = x0 := by
  intro l
  induction l with
  | nil => intro a _ h; exact absurd rfl h
  | cons c t ih =>
    intro a hl _
    rw [List.foldl_cons]
    rcases t with _ | ⟨c2, t2⟩
    · have hx : (stepFold s maxY a c).x = c.x := by
        unfold stepFold; split <;> rfl
      rw [List.foldl_nil, hx]
      exact hl c (List.mem_cons_self c _)
    · exact ih _ (fun c' hc' => hl c' (List.mem_cons_of_mem _ hc')) (by simp)

lemma eraseTrailAux_mem (maxY x : ℤ) (width : Nat) :
    ∀ (fuel : Nat) (y : ℤ), ∀ w ∈ eraseTrailAux maxY x width fuel y,
      0 ≤ w.row ∧ w.row < maxY ∧ w.col = x ∧ w.len = width := by
  intro fuel
  induction fuel with
  | zero => intro y w hw; simp [eraseTrailAux] at hw
  | succ f ih =>
    intro y w hw
    unfold eraseTrailAux at hw
    split at hw
    case isTrue hos =>
      rcases List.mem_cons.mp hw with rfl | h
      · obtain ⟨h1, h2⟩ := (is_on_screen_iff maxY y).mp hos
        exact ⟨h1, h2, rfl, rfl⟩
      · exact ih _ w h
    case isFalse => simp at hw

lemma eraseTrailAux_nil_of_neg (maxY x : ℤ) (width : Nat) (fuel : Nat) (y : ℤ)
    (h : y < 0) : eraseTrailAux maxY x width fuel y = [] := by
  cases fuel with
  | zero => rfl
  | succ f =>
    unfold eraseTrailAux
    rw [if_neg]
    simp [is_on_screen_iff]
    omega

lemma step_writes_bounded (col : Column) (maxY x0 : ℤ)
    (hx : ∀ c ∈ col.characters, c.x = x0) (hw : col.width = 2) :
    ∀ w ∈ (col.step maxY).2.1, 0 ≤ w.row ∧ w.row < maxY ∧ w.col = x0 ∧ w.len = 2 := by
  intro w hmem
  unfold Column.step at hmem
  rcases List.mem_append.mp hmem with h | h
  · exact foldl_stepFold_writes col.min_falling_speed maxY x0 col.characters _ hx
      (by intro w' hw'; simp at hw') w h
  · rcases eq_or_ne col.characters [] with he | he
    · rw [he] at h
      rw [List.foldl_nil] at h
      unfold eraseTrail at h
      rw [eraseTrailAux_nil_of_neg maxY _ _ _ _ (by norm_num)] at h
      simp at h
    · have hxx := foldl_stepFold_x col.min_falling_speed maxY x0 col.characters
        ⟨[], [], false, -1, -1⟩ hx he
      unfold eraseTrail at h
      have hres := eraseTrailAux_mem maxY _ col.width _ _ w h
      rw [hxx] at hres
      rw [hw] at hres
      exact hres

lemma step_fst_speed (col : Column) (maxY : ℤ) :
    (col.step maxY).1.min_falling_speed = col.min_falling_speed := rfl

lemma step_fst_width (col : Column) (maxY : ℤ) :
    (col.step maxY).1.width = col.width := rfl

lemma step_map_x (col : Column) (maxY : ℤ) :
    (col.step maxY).1.characters.map (fun c => c.x)
      = col.characters.map (fun c => c.x) := by
  rw [step_chars, List.map_map]
  rfl

lemma step_map_symbol (col : Column) (maxY : ℤ) :
    (col.step maxY).1.characters.map (fun c => c.symbol)
      = col.characters.map (fun c => c.symbol) := by
  rw [step_chars, List.map_map]
  rfl

lemma step_map_color (col : Column) (maxY : ℤ) :
    (col.step maxY).1.characters.map (fun c => c.color)
      = col.characters.map (fun c => c.color) := by
  rw [step_chars, List.map_map]
  rfl

lemma applyOps_map_color : ∀ (ops : List Op) (col : Column),
    ((col.applyOps ops).characters.map (fun c => c.color))
      = col.characters.map (fun c => c.color) := by
  intro ops
  induction ops with
  | nil => intro col; rfl
  | cons op t ih =>
    intro col
    have h1 : col.applyOps (op :: t) = (col.applyOp op).applyOps t := rfl
    rw [h1, ih]
    cases op with
    | step maxY => exact step_map_color col maxY
    | reset sp d => exact reset_map_color col sp d

lemma applyOps_map_x : ∀ (ops : List Op) (col : Column),
    ((col.applyOps ops).characters.map (fun c => c.x))
      = col.characters.map (fun c => c.x) := by
  intro ops
  induction ops with
  | nil => intro col; rfl
  | cons op t ih =>
    intro col
    have h1 : col.applyOps (op :: t) = (col.applyOp op).applyOps t := rfl
    rw [h1, ih]
    cases op with
    | step maxY => exact step_map_x col maxY
    | reset sp d => exact reset_map_x col sp d

lemma applyOps_width : ∀ (ops : List Op) (col : Column),
    (col.applyOps ops).width = col.width := by
  intro ops
  induction ops with
  | nil => intro col; rfl
  | cons op t ih =>
    intro col
    have h1 : col.applyOps (op :: t) = (col.applyOp op).applyOps t := rfl
    rw [h1, ih]
    cases op with
    | step maxY => exact step_fst_width col maxY
    | reset sp d => rfl

lemma applyOps_x_all (col : Column) (ops : List Op) (x0 : ℤ)
    (h : ∀ c ∈ col.characters, c.x = x0) :
    ∀ c ∈ (col.applyOps ops).characters, c.x = x0 := by
  intro c hc
  have hmem : c.x ∈ (col.applyOps ops).characters.map (fun c => c.x) :=
    List.mem_map_of_mem _ hc
  rw [applyOps_map_x] at hmem
  obtain ⟨c', hc', he⟩ := List.mem_map.mp hmem
  rw [← he]
  exact h c' hc'

lemma rangeUpAux_mem_iff (stop : Nat) :
    ∀ (fuel start x : Nat), stop ≤ fuel + start →
      (x ∈ rangeUpAux stop 2 fuel start ↔ 2 ∣ (x - start) ∧ start ≤ x ∧ x < stop) := by
  intro fuel
  induction fuel with
  | zero =>
    intro start x h
    simp only [rangeUpAux, List.not_mem_nil, false_iff]
    omega
  | succ f ih =>
    intro start x h
    unfold rangeUpAux
    by_cases hs : start < stop
    · rw [if_pos hs, List.mem_cons, ih (start + 2) x (by omega)]
      omega
    · rw [if_neg hs]
      simp only [List.not_mem_nil, false_iff]
      omega

lemma columnSlots_mem (W x : Nat) : x ∈ columnSlots W ↔ 2 ∣ x ∧ x + 2 < W := by
  unfold columnSlots rangeUp
  rw [rangeUpAux_mem_iff (W - 2) (W - 2) 0 x (by omega)]
  omega

lemma color_pairs_length (colors : Nat) :
    (color_pairs colors).length = (green_gradient colors).length :=
  List.length_range' 1 1 _

lemma generate_green_palette_some (colors H : Nat)
    (h : 1 ≤ (green_gradient colors).length) :
    generate_green_palette colors H
      = some ((color_pairs colors).take ((color_pairs colors).length / 2)
          ++ List.replicate H
              ((color_pairs colors).getD ((color_pairs colors).length / 2) 0)
          ++ (color_pairs colors).drop ((color_pairs colors).length / 2 + 1)) := by
  have hlen := color_pairs_length colors
  have hmi : (color_pairs colors).length / 2 < (color_pairs colors).length := by omega
  have hsome : (color_pairs colors).get? ((color_pairs colors).length / 2)
      = some ((color_pairs colors).getD ((color_pairs colors).length / 2) 0) := by
    rw [List.getD_eq_getElem _ _ hmi, List.get?_eq_getElem?, List.getElem?_eq_getElem hmi]
  unfold generate_green_palette
  rw [hsome]

/-! ### Claims -/

/-- C1 (counterexample): the claim says that with screenHeight 24,
columnSpacing 2 and screenWidth 10, `generate_all_columns` produces
exactly 5 columns at positions 0, 2, 4, 6, 8.  In the code the slot range
`range(0, screen_width - column_spacing, column_spacing)` excludes its
stop value, so only 4 columns are produced, at positions 0, 2, 4, 6. -/
theorem C1_counterexample :
    (generate_all_columns 10 [1] (fun _ => 1) (fun _ _ => GlyphToken.latin 'a' 'b')).map
        (fun col => col.characters.map (fun c => c.x))
      = [[0], [2], [4], [6]] ∧
    (generate_all_columns 10 [1] (fun _ => 1)
        (fun _ _ => GlyphToken.latin 'a' 'b')).length ≠ 5 := by
  decide

/-- C1 (amended): `generate_all_columns` creates one Column per multiple
of the column spacing 2 from 0 up to, but excluding,
`screenWidth - columnSpacing`; every cell of the column at slot `x` sits
at horizontal position `x`.  In particular screenWidth 10 yields the
slots 0, 2, 4, 6 only. -/
theorem C1_generate_columns (W : Nat) (palette : List Nat) (speed : Nat → ℚ)
    (draw : Nat → Nat → GlyphToken) :
    (generate_all_columns W palette speed draw).map
        (fun col => col.characters.map (fun c => c.x))
      = (columnSlots W).map (fun x => List.replicate palette.length (Int.ofNat x)) ∧
    ∀ x : Nat, x ∈ columnSlots W ↔ 2 ∣ x ∧ x + 2 < W := by
  constructor
  · unfold generate_all_columns
    rw [List.map_map]
    apply List.map_congr_left
    intro x _
    exact init_map_x (0, Int.ofNat x) palette (speed x) 2 (draw x)
  · intro x
    exact columnSlots_mem W x

/-- C2 (counterexample): the claim says every palette build with `L` raw
brightness levels and screen height `H` yields length `2*(L/2) + H`.  On
a 6-color terminal the raw gradient has `L = 4` levels and with `H = 1`
the stretched palette has length 4, not `2*(4/2) + 1 = 5`: the midpoint
level is dropped from the tail, so the true length is `L + H - 1`. -/
theorem C2_counterexample :
    (generate_green_palette 6 1).map List.length = some 4 ∧
    (generate_green_palette 6 1).map List.length
      ≠ some (2 * ((green_gradient 6).length / 2) + 1) := by
  decide

/-- C2 (amended): for every palette build whose raw gradient has
`L ≥ 1` levels and every screen height `H`, the stretched palette
`head ++ middle ++ tail` has length exactly `L + H - 1` (the midpoint
level survives only through the middle run; the tail starts after it),
and its `H` middle entries, starting at index `L / 2`, are pairwise
identical, all equal to the midpoint color. -/
theorem C2_palette_stretch (colors H : Nat)
    (h : 1 ≤ (green_gradient colors).length) :
    (generate_green_palette colors H).map List.length
      = some ((green_gradient colors).length + H - 1) ∧
    (generate_green_palette colors H).map
        (fun p => (p.drop ((green_gradient colors).length / 2)).take H)
      = some (List.replicate H
          ((color_pairs colors).getD ((green_gradient colors).length / 2) 0)) := by
  have hlen := color_pairs_length colors
  rw [generate_green_palette_some colors H h]
  constructor
  · simp only [Option.map_some', Option.some.injEq, List.length_append,
      List.length_replicate, List.length_take, List.length_drop]
    omega
  · simp only [Option.map_some', Option.some.injEq]
    have h1 : ((color_pairs colors).take ((color_pairs colors).length / 2)).length
        = (green_gradient colors).length / 2 := by
      rw [List.length_take]
      omega
    rw [List.append_assoc, List.drop_left' h1,
      List.take_left' (List.length_replicate H _), hlen]

/-- C2 witness: the amended statement at a 9-color terminal (raw gradient
length 7) and screen height 24. -/
theorem C2_palette_stretch_witness :
    1 ≤ (green_gradient 9).length ∧
    ((generate_green_palette 9 24).map List.length
        = some ((green_gradient 9).length + 24 - 1) ∧
      (generate_green_palette 9 24).map
          (fun p => (p.drop ((green_gradient 9).length / 2)).take 24)
        = some (List.replicate 24
            ((color_pairs 9).getD ((green_gradient 9).length / 2) 0))) :=
  ⟨by decide, C2_palette_stretch 9 24 (by decide)⟩

/-- C4 (code bug): the claim says every terminal passing the startup
check (at least 2 colors, color support, color redefinition) completes
palette construction without error.  A terminal with exactly 2 colors
passes `terminal_ok`, yet `generate_green_palette` then computes an empty
green gradient (`dg = 1000`, `range(1000, 1000, -1000)` is empty) and
evaluates `color_pairs[0]` while building the middle run, an
`IndexError` — modelled as `none` — on any screen with at least 1 row. -/
theorem C4_two_color_crash :
    terminal_ok 2 true true = true ∧ generate_green_palette 2 1 = none := by
  decide

lemma pytrunc_intCast (z : ℤ) : pytrunc (z : ℚ) = z := by
  unfold pytrunc
  rw [Rat.num_intCast, Rat.den_intCast]
  exact Int.tdiv_one z

lemma any_map' {α β : Type} (f : α → β) (p : β → Bool) :
    ∀ l : List α, (l.map f).any p = l.any (fun a => p (f a)) := by
  intro l
  induction l with
  | nil => rfl
  | cons a t ih => simp [List.any_cons, ih]

lemma any_congr' {α : Type} (p q : α → Bool) :
    ∀ l : List α, (∀ a ∈ l, p a = q a) → l.any p = l.any q := by
  intro l
  induction l with
  | nil => intro _; rfl
  | cons a t ih =>
    intro h
    rw [List.any_cons, List.any_cons, h a (List.mem_cons_self a t),
      ih (fun a ha => h a (List.mem_cons_of_mem _ ha))]

lemma foldl_stepFold_vis (s : ℚ) (maxY : ℤ) :
    ∀ (l : List Character) (a : StepAcc),
      (l.foldl (stepFold s maxY) a).vis
        = (a.vis || l.any (fun c => is_on_screen maxY (pytrunc c.y))) := by
  intro l
  induction l with
  | nil => intro a; simp
  | cons c t ih =>
    intro a
    rw [List.foldl_cons, ih]
    unfold stepFold
    split
    case isTrue h => simp [List.any_cons, h]
    case isFalse h =>
      rw [Bool.not_eq_true] at h
      simp [List.any_cons, h]

lemma step_vis (col : Column) (maxY : ℤ) :
    (col.step maxY).2.2
      = col.characters.any (fun c => is_on_screen maxY (pytrunc c.y)) := by
  show (col.characters.foldl (stepFold col.min_falling_speed maxY)
    ⟨[], [], false, -1, -1⟩).vis = _
  rw [foldl_stepFold_vis]
  simp

lemma stepN_speed (col : Column) (maxY : ℤ) :
    ∀ n, (col.stepN maxY n).min_falling_speed = col.min_falling_speed := by
  intro n
  induction n with
  | zero => rfl
  | succ n ih =>
    show ((col.stepN maxY n).step maxY).1.min_falling_speed = _
    rw [step_fst_speed, ih]

lemma stepN_chars (col : Column) (maxY : ℤ) :
    ∀ n, (col.stepN maxY n).characters
      = col.characters.map
          (fun c => { c with y := c.y + (n : ℚ) * col.min_falling_speed }) := by
  intro n
  induction n with
  | zero =>
    have hz : ∀ c : Character,
        ({ c with y := c.y + ((0 : Nat) : ℚ) * col.min_falling_speed } : Character)
          = c := by
      intro c
      rcases c with ⟨cy, cx, cs, cc⟩
      simp
    simp only [hz, List.map_id']
    rfl
  | succ n ih =>
    show ((col.stepN maxY n).step maxY).1.characters = _
    rw [step_chars, stepN_speed, ih, List.map_map]
    apply List.map_congr_left
    intro c _
    rcases c with ⟨cy, cx, cs, cc⟩
    simp only [Function.comp_apply, Character.mk.injEq, and_true]
    push_cast
    ring

lemma col24_vis (k : Nat) :
    col24.stepResult 24 k
      = (List.range' 1 24).enum.any
          (fun p => is_on_screen 24 ((k : ℤ) - (p.1 : ℤ))) := by
  unfold Column.stepResult
  rw [step_vis, stepN_chars]
  dsimp only [col24, Column.init]
  rw [List.map_map, any_map']
  refine any_congr' _ _ _ (fun p _ => ?_)
  show is_on_screen 24 (pytrunc ((((0 : ℤ) - (p.1 : ℤ) : ℤ) : ℚ) + (k : ℚ) * 1))
    = is_on_screen 24 ((k : ℤ) - (p.1 : ℤ))
  have hq : ((((0 : ℤ) - (p.1 : ℤ) : ℤ) : ℚ) + (k : ℚ) * 1)
      = (((k : ℤ) - (p.1 : ℤ) : ℤ) : ℚ) := by
    push_cast
    ring
  rw [hq, pytrunc_intCast]

lemma col24_rows (k : Nat) :
    (col24.stepN 24 k).characters.map (fun c => pytrunc c.y)
      = (List.range' 1 24).enum.map (fun p => (k : ℤ) - (p.1 : ℤ)) := by
  rw [stepN_chars]
  dsimp only [col24, Column.init]
  rw [List.map_map, List.map_map]
  apply List.map_congr_left
  intro p _
  show pytrunc ((((0 : ℤ) - (p.1 : ℤ) : ℤ) : ℚ) + (k : ℚ) * 1)
    = (k : ℤ) - (p.1 : ℤ)
  have hq : ((((0 : ℤ) - (p.1 : ℤ) : ℤ) : ℚ) + (k : ℚ) * 1)
      = (((k : ℤ) - (p.1 : ℤ) : ℤ) : ℚ) := by
    push_cast
    ring
  rw [hq, pytrunc_intCast]

lemma strictlyDecreasing_chain' :
    ∀ l : List Nat, strictlyDecreasing l = true ↔ List.Chain' (fun a b => b < a) l := by
  intro l
  induction l with
  | nil => simp [strictlyDecreasing]
  | cons a t ih =>
    cases t with
    | nil => simp [strictlyDecreasing]
    | cons b t2 =>
      rw [show strictlyDecreasing (a :: b :: t2)
          = (decide (b < a) && strictlyDecreasing (b :: t2)) from rfl]
      rw [List.chain'_cons, Bool.and_eq_true, decide_eq_true_eq, ih]

/-- C3 (counterexample): the claim says a Column with speed 1.0, head
started at row 0 on a 24-row screen, with a 24-entry palette, first
returns `false` from `step` after exactly 24 calls.  In fact every one of
the first 24 calls — the 24th included — still reports the column
visible: only the head has left the screen, while the tail started 23
rows above it. -/
theorem C3_counterexample :
    col24.stepResult 24 23 = true ∧
    (List.range 24).all (fun k => col24.stepResult 24 k) = true := by
  have hf : (fun k => col24.stepResult 24 k)
      = (fun k : ℕ => (List.range' 1 24).enum.any
          (fun p => is_on_screen 24 ((k : ℤ) - (p.1 : ℤ)))) :=
    funext col24_vis
  constructor
  · rw [col24_vis]
    decide
  · rw [hf]
    decide

/-- C3 (amended): that Column stays visible through each of the first 47
calls to `step` and becomes fully invisible at exactly the 48th call,
once its tail cell (depth 23, started at row -23) is read at truncated
row 24, beyond the last visible row 23. -/
theorem C3_invisible_after_48 :
    (List.range 47).all (fun k => col24.stepResult 24 k) = true ∧
    col24.stepResult 24 47 = false ∧
    ((col24.stepN 24 47).characters.map (fun c => pytrunc c.y)).getLast?
      = some 24 := by
  have hf : (fun k => col24.stepResult 24 k)
      = (fun k : ℕ => (List.range' 1 24).enum.any
          (fun p => is_on_screen 24 ((k : ℤ) - (p.1 : ℤ)))) :=
    funext col24_vis
  refine ⟨?_, ?_, ?_⟩
  · rw [hf]
    decide
  · rw [col24_vis]
    decide
  · rw [col24_rows]
    decide

/-- C5: the raw green gradient, on every terminal with at least 2 colors,
has at most 8 levels, is strictly decreasing in its green component from
the maximum brightness 1000 downward, and contains no pure black: every
entry is `(0, g, 0)` with `0 < g ≤ 1000`. -/
theorem C5_gradient (colors : Nat) (h : 2 ≤ colors) :
    (green_gradient colors).length ≤ 8 ∧
    List.Chain' (fun a b : Nat × Nat × Nat => b.2.1 < a.2.1) (green_gradient colors) ∧
    ((green_gradient colors).all
      (fun c => decide (c.1 = 0) && decide (0 < c.2.1)
        && decide (c.2.1 ≤ 1000) && decide (c.2.2 = 0))) = true := by
  have h1 : 1 ≤ min 8 (colors - 1) := by omega
  have h2 : min 8 (colors - 1) ≤ 8 := by omega
  unfold green_gradient
  generalize hm : min 8 (colors - 1) = m at h1 h2 ⊢
  have hchain : ∀ l : List (Nat × Nat × Nat),
      strictlyDecreasing (l.map (fun c => c.2.1)) = true →
      List.Chain' (fun a b : Nat × Nat × Nat => b.2.1 < a.2.1) l := by
    intro l hl
    rw [strictlyDecreasing_chain'] at hl
    exact (List.chain'_map (fun c : Nat × Nat × Nat => c.2.1)).mp hl
  interval_cases m <;>
    exact ⟨by decide, hchain _ (by decide), by decide⟩

/-- C5 witness: the gradient bounds at a 256-color terminal. -/
theorem C5_gradient_witness :
    2 ≤ 256 ∧
    ((green_gradient 256).length ≤ 8 ∧
      List.Chain' (fun a b : Nat × Nat × Nat => b.2.1 < a.2.1) (green_gradient 256) ∧
      ((green_gradient 256).all
        (fun c => decide (c.1 = 0) && decide (0 < c.2.1)
          && decide (c.2.1 ≤ 1000) && decide (c.2.2 = 0))) = true) :=
  ⟨by decide, C5_gradient 256 (by decide)⟩

/-- C6: after `reset(newSpeed)`, the column's speed equals `newSpeed` and
the cell at every depth `dy` sits at row `-dy`, carries the freshly drawn
glyph for that depth, and keeps its color level unchanged. -/
theorem C6_reset (col : Column) (s : ℚ) (d : Nat → GlyphToken) (dy : Nat)
    (h : dy < col.characters.length) :
    (col.reset s d).min_falling_speed = s ∧
    ((col.reset s d).characters.getD dy ⟨0, 0, GlyphToken.wide 'a', 0⟩).y = -(dy : ℚ) ∧
    ((col.reset s d).characters.getD dy ⟨0, 0, GlyphToken.wide 'a', 0⟩).symbol = d dy ∧
    ((col.reset s d).characters.getD dy ⟨0, 0, GlyphToken.wide 'a', 0⟩).color
      = (col.characters.getD dy ⟨0, 0, GlyphToken.wide 'a', 0⟩).color := by
  have hlen : (col.reset s d).characters.length = col.characters.length := by
    unfold Column.reset
    rw [List.length_map, List.enum_length]
  have h2 : dy < (col.reset s d).characters.length := by
    rw [hlen]
    exact h
  have key : (col.reset s d).characters.getD dy ⟨0, 0, GlyphToken.wide 'a', 0⟩
      = { y := (-(dy : ℤ) : ℚ),
          x := (col.characters.getD dy ⟨0, 0, GlyphToken.wide 'a', 0⟩).x,
          symbol := d dy,
          color := (col.characters.getD dy ⟨0, 0, GlyphToken.wide 'a', 0⟩).color } := by
    rw [List.getD_eq_getElem _ _ h2, List.getD_eq_getElem _ _ h]
    unfold Column.reset
    simp only [List.getElem_map, List.getElem_enum]
  refine ⟨rfl, ?_, ?_, ?_⟩
  · rw [key]
    push_cast
    rfl
  · rw [key]
  · rw [key]

/-- C6 witness: a one-cell column at head `(0, 5)` with color 7, reset to
speed 2 with a fresh wide glyph. -/
theorem C6_reset_witness :
    0 < (Column.init (0, 5) [7] 1 2 (fun _ => GlyphToken.latin 'a' 'b')).characters.length ∧
    (((Column.init (0, 5) [7] 1 2 (fun _ => GlyphToken.latin 'a' 'b')).reset 2
        (fun _ => GlyphToken.wide 'x')).min_falling_speed = 2 ∧
      (((Column.init (0, 5) [7] 1 2 (fun _ => GlyphToken.latin 'a' 'b')).reset 2
          (fun _ => GlyphToken.wide 'x')).characters.getD 0
            ⟨0, 0, GlyphToken.wide 'a', 0⟩).y = -((0 : Nat) : ℚ) ∧
      (((Column.init (0, 5) [7] 1 2 (fun _ => GlyphToken.latin 'a' 'b')).reset 2
          (fun _ => GlyphToken.wide 'x')).characters.getD 0
            ⟨0, 0, GlyphToken.wide 'a', 0⟩).symbol = GlyphToken.wide 'x' ∧
      (((Column.init (0, 5) [7] 1 2 (fun _ => GlyphToken.latin 'a' 'b')).reset 2
          (fun _ => GlyphToken.wide 'x')).characters.getD 0
            ⟨0, 0, GlyphToken.wide 'a', 0⟩).color
        = ((Column.init (0, 5) [7] 1 2 (fun _ => GlyphToken.latin 'a' 'b')).characters.getD 0
            ⟨0, 0, GlyphToken.wide 'a', 0⟩).color) :=
  ⟨by decide, C6_reset (Column.init (0, 5) [7] 1 2 (fun _ => GlyphToken.latin 'a' 'b'))
    2 (fun _ => GlyphToken.wide 'x') 0 (by decide)⟩

/-- C7: for every column built by `Column.__init__` from a palette and
every sequence of `step` and `reset` operations, the cells' color levels
never change: the list of colors, by depth, stays exactly the palette. -/
theorem C7_color_invariant (head : ℤ × ℤ) (palette : List Nat) (s : ℚ) (w : Nat)
    (d : Nat → GlyphToken) (ops : List Op) :
    ((Column.init head palette s w d).applyOps ops).characters.map (fun c => c.color)
      = palette := by
  rw [applyOps_map_color, init_map_color]

/-- C8: with `latin_chance = 1.0` the glyph source always returns a
two-character token with both characters from the Latin
letters/digits/punctuation pool; with `latin_chance = 0.0` it always
returns a single glyph from the non-Latin pool (`r` is the uniform
sample of `random.random()`, so `0 ≤ r < 1`). -/
theorem C8_glyph_source (r : ℚ) (i1 i2 j : Nat) (h0 : 0 ≤ r) (h1 : r < 1) :
    isLatinToken (random_character r 1 i1 i2 j) ∧
    isWideToken (random_character r 0 i1 i2 j) := by
  constructor
  · unfold random_character
    rw [if_pos h1]
    exact ⟨getD_mod_mem _ _ _ (by decide), getD_mod_mem _ _ _ (by decide)⟩
  · unfold random_character
    rw [if_neg (not_lt.mpr h0)]
    exact getD_mod_mem _ _ _ (by decide)

/-- C8 witness: the glyph source at the uniform sample 0. -/
theorem C8_glyph_source_witness :
    (0 ≤ (0 : ℚ) ∧ (0 : ℚ) < 1) ∧
    (isLatinToken (random_character 0 1 0 1 2) ∧
      isWideToken (random_character 0 0 0 1 2)) :=
  ⟨⟨by decide, by decide⟩,
    C8_glyph_source 0 0 1 2 (by decide) (by decide)⟩

/-- C9: for every column built by `generate_all_columns` and every
sequence of `step`/`reset` operations, all draw and erase writes issued
by the next `step` are range-guarded: rows lie in `[0, screenHeight)` and
the 2-cell-wide token fits left of the right screen edge. -/
theorem C9_writes_in_bounds (W : Nat) (palette : List Nat) (speed : Nat → ℚ)
    (draw : Nat → Nat → GlyphToken) (ops : List Op) (maxY : ℤ) (col : Column)
    (hcol : col ∈ generate_all_columns W palette speed draw) :
    writesOK W maxY (((col.applyOps ops).step maxY).2.1) := by
  obtain ⟨x, hx, rfl⟩ := List.mem_map.mp hcol
  have hslot := (columnSlots_mem W x).mp hx
  have hinit : ∀ c ∈ (Column.init (0, Int.ofNat x) palette (speed x) 2 (draw x)).characters,
      c.x = Int.ofNat x := by
    intro c hc
    have hmem : c.x ∈ (Column.init (0, Int.ofNat x) palette (speed x) 2
        (draw x)).characters.map (fun c => c.x) := List.mem_map_of_mem _ hc
    rw [init_map_x] at hmem
    exact List.eq_of_mem_replicate hmem
  have hx0 := applyOps_x_all _ ops (Int.ofNat x) hinit
  have hwd : ((Column.init (0, Int.ofNat x) palette (speed x) 2
      (draw x)).applyOps ops).width = 2 := by
    rw [applyOps_width]
    rfl
  intro w hw
  obtain ⟨h1, h2, h3, h4⟩ := step_writes_bounded _ maxY (Int.ofNat x) hx0 hwd w hw
  refine ⟨h1, h2, ?_, ?_, h4⟩
  · rw [h3]
    exact Int.ofNat_nonneg x
  · rw [h3, h4]
    have hcast : Int.ofNat x = (x : ℤ) := rfl
    rw [hcast]
    have hb := hslot.2
    omega

/-- C9 witness: the first column of a 10-cell-wide screen with a 2-color
palette, stepped once from its initial state on a 24-row screen. -/
theorem C9_writes_in_bounds_witness :
    Column.init (0, Int.ofNat 0) [1, 2] 1 2 (fun _ => GlyphToken.latin 'a' 'b')
        ∈ generate_all_columns 10 [1, 2] (fun _ => 1) (fun _ _ => GlyphToken.latin 'a' 'b') ∧
    writesOK 10 24
      (((Column.init (0, Int.ofNat 0) [1, 2] 1 2
          (fun _ => GlyphToken.latin 'a' 'b')).applyOps []).step 24).2.1 :=
  ⟨by decide, C9_writes_in_bounds 10 [1, 2] (fun _ => 1)
    (fun _ _ => GlyphToken.latin 'a' 'b') [] 24 _ (by decide)⟩

/-- C10: a cell's horizontal position is fixed at construction and never
modified: `step` changes only rows (symbols, colors, speed and width are
untouched), `reset` keeps positions and colors, and after any sequence of
operations every cell of an initialised column still sits at the head's
column index. -/
theorem C10_x_fixed :
    (∀ (col : Column) (maxY : ℤ),
        (col.step maxY).1.characters.map (fun c => c.x)
            = col.characters.map (fun c => c.x) ∧
        (col.step maxY).1.characters.map (fun c => c.symbol)
            = col.characters.map (fun c => c.symbol) ∧
        (col.step maxY).1.characters.map (fun c => c.color)
            = col.characters.map (fun c => c.color) ∧
        (col.step maxY).1.min_falling_speed = col.min_falling_speed ∧
        (col.step maxY).1.width = col.width) ∧
    (∀ (col : Column) (s : ℚ) (d : Nat → GlyphToken),
        (col.reset s d).characters.map (fun c => c.x)
            = col.characters.map (fun c => c.x) ∧
        (col.reset s d).characters.map (fun c => c.color)
            = col.characters.map (fun c => c.color) ∧
        (col.reset s d).width = col.width) ∧
    (∀ (head : ℤ × ℤ) (palette : List Nat) (s : ℚ) (w : Nat)
        (d : Nat → GlyphToken) (ops : List Op),
        ((Column.init head palette s w d).applyOps ops).characters.map (fun c => c.x)
          = List.replicate palette.length head.2) := by
  refine ⟨?_, ?_, ?_⟩
  · intro col maxY
    exact ⟨step_map_x col maxY, step_map_symbol col maxY, step_map_color col maxY,
      step_fst_speed col maxY, step_fst_width col maxY⟩
  · intro col s d
    exact ⟨reset_map_x col s d, reset_map_color col s d, rfl⟩
  · intro head palette s w d ops
    rw [applyOps_map_x, init_map_x]
